import Mathlib

/-!
Shallow embedding of the `aid-metrics` analysis pipeline
(`pkg/analyzer/analyzer.go`, `pkg/analyzer/discovery.go` batch loader,
`pkg/models`).

Modelling conventions:
* Go strings are Lean `String`; `strings.HasPrefix s p` is `p.isPrefixOf s`,
  `strings.Contains s "."` is `s.contains '.'` (the needle is a single
  character), `strings.Split s "/"` is `s.splitOn "/"`.
* Go maps are modelled extensionally: `map[string][]string` becomes
  `String → Option (List String)` when the key set matters (the forward
  dependency map, whose keys are the graph nodes) and `String → List String`
  with default `[]` when only lookups matter (the reverse map; reading a
  missing key in Go yields `nil`).  `map[string]int` becomes `String → Nat`
  with default `0`.
* `float64` ratio arithmetic (`I`, `A`, `D`) is modelled by exact rationals
  `ℚ`; the division and `math.Abs` are the only float operations.
* The external parser (`parser.ParseFile`) is modelled by letting each source
  file of a package be given as `Except String GoFile`: either a parse error
  or the multiset of top-level declarations the `ast.Inspect` walk counts.
* Goroutine scheduling is modelled by quantifying over the arrival order of
  worker results: `parsePackages` consumes an arbitrary list of
  `PackageAnalysisResult`s on the single aggregator thread, exactly as the
  `for result := range results` loop does.
-/

/-- Go `strings.HasPrefix s pre`, computed on the underlying character
lists so that it reduces in the kernel. -/
def goHasPrefix (s pre : String) : Bool :=
  pre.data.isPrefixOf s.data

/-- Go `strings.Contains s needle` for a single-character needle (the
source only ever searches for `"."`). -/
def goContains (s : String) (c : Char) : Bool :=
  s.data.contains c

/-- Helper for `goSplit`: split a character list at every occurrence of
`c`, `acc` holding the current (reversed) segment. -/
def splitCharAux (c : Char) : List Char → List Char → List (List Char)
  | [], acc => [acc.reverse]
  | x :: xs, acc =>
      if x = c then acc.reverse :: splitCharAux c xs []
      else splitCharAux c xs (x :: acc)

/-- Go `strings.Split s sep` for a single-character separator (the source
splits on `"/"` and `" "`); always returns at least one segment. -/
def goSplit (s : String) (c : Char) : List (List Char) :=
  splitCharAux c s.data []

/-- Go `strings.TrimPrefix`: drop `pre` from the front of `s` if present,
otherwise return `s` unchanged. -/
def trimPrefix (s pre : String) : String :=
  if goHasPrefix s pre then ⟨s.data.drop pre.data.length⟩ else s

/-- `isStandardLibraryPackage` from `pkg/analyzer/analyzer.go`:
decides whether an import path is a standard-library path, given the module
identity read from `go.mod` (empty when unknown). -/
def isStandardLibraryPackage (pkgID mainModulePath : String) : Bool :=
  if mainModulePath ≠ "" then
    let parts := goSplit pkgID '/'
    if !parts.isEmpty && !(parts.headD []).contains '.'
        && !(goHasPrefix pkgID mainModulePath) then
      true
    else if goHasPrefix pkgID mainModulePath then
      false
    else if !(goContains pkgID '.') then true
    else false
  else if !(goContains pkgID '.') then true
  else false

/-- One top-level declaration as seen by the `ast.Inspect` walk in
`analyzePackage`: a type spec whose underlying type is an interface, a
struct, or something else (alias etc.), or a function declaration (with or
without a receiver). -/
inductive Decl where
  | interfaceSpec : Decl
  | structSpec : Decl
  | otherTypeSpec : Decl
  | funcDecl (hasRecv : Bool) : Decl
  | otherNode : Decl
deriving DecidableEq, Repr

/-- A parsed Go source file: the list of top-level declarations. -/
structure GoFile where
  decls : List Decl
deriving DecidableEq, Repr

instance : DecidableEq (Except String GoFile) := fun a b =>
  match a, b with
  | Except.error x, Except.error y =>
      if h : x = y then isTrue (by rw [h]) else
        isFalse (by intro hc; cases hc; exact h rfl)
  | Except.error _, Except.ok _ => isFalse (by intro hc; cases hc)
  | Except.ok _, Except.error _ => isFalse (by intro hc; cases hc)
  | Except.ok x, Except.ok y =>
      if h : x = y then isTrue (by rw [h]) else
        isFalse (by intro hc; cases hc; exact h rfl)

/-- A resolved package as handed to the analyzer pool (`packages.Package`
restricted to the fields `analyzePackage` reads): identifier, import IDs,
and the per-file parse outcome of each of its Go files. -/
structure GoPackage where
  id : String
  imports : List String
  goFiles : List (Except String GoFile)
deriving DecidableEq

/-- `packageAnalysisResult` from `pkg/analyzer/analyzer.go`. -/
structure PackageAnalysisResult where
  packageID : String
  dependencies : List String
  abstractCount : Nat
  totalTypesCount : Nat
  err : Option String
deriving DecidableEq, Repr

/-- Interface count of one file's declaration walk. -/
def countInterfaces (f : GoFile) : Nat :=
  (f.decls.filter (· = Decl.interfaceSpec)).length

/-- Concrete-struct count of one file's declaration walk. -/
def countStructs (f : GoFile) : Nat :=
  (f.decls.filter (· = Decl.structSpec)).length

/-- Standalone-function count of one file's declaration walk
(`FuncDecl` with `Recv == nil`). -/
def countFuncs (f : GoFile) : Nat :=
  (f.decls.filter (· = Decl.funcDecl false)).length

/-- The file loop of `analyzePackage`: accumulate interface, struct and
standalone-function counts over the package's files, stopping at the first
file whose parse fails and surfacing its error. -/
def countTypes : List (Except String GoFile) → Nat → Nat → Nat →
    Except String (Nat × Nat × Nat)
  | [], a, c, f => Except.ok (a, c, f)
  | Except.error e :: _, _, _, _ =>
      Except.error ("failed to parse file: " ++ e)
  | Except.ok file :: rest, a, c, f =>
      countTypes rest (a + countInterfaces file) (c + countStructs file)
        (f + countFuncs file)

/-- `analyzePackage` from `pkg/analyzer/analyzer.go`: classify the package
itself (standard-library / vendored packages yield an empty result), filter
its imports by the same classification, and count declarations over its
files.  A parse failure yields a result carrying the error. -/
def analyzePackage (moduleName : String) (pkg : GoPackage) :
    PackageAnalysisResult :=
  if isStandardLibraryPackage pkg.id moduleName
      || goHasPrefix pkg.id "vendor/" then
    { packageID := pkg.id, dependencies := [], abstractCount := 0,
      totalTypesCount := 0, err := none }
  else
    let deps := pkg.imports.filter fun imp =>
      !(isStandardLibraryPackage imp moduleName
          || goHasPrefix imp "vendor/")
    match countTypes pkg.goFiles 0 0 0 with
    | Except.error e =>
        { packageID := pkg.id, dependencies := deps, abstractCount := 0,
          totalTypesCount := 0, err := some e }
    | Except.ok (a, c, f) =>
        { packageID := pkg.id, dependencies := deps, abstractCount := a,
          totalTypesCount := a + c + f, err := none }

/-- The aggregate state of `ModuleAnalyzer` mutated by the result loop of
`parsePackages`: the four Go maps, modelled extensionally.  The key set of
`dependencies` is the node set of the dependency graph; `reverseDepends`
reads of a missing key yield `[]` (Go `nil`), and the count maps default
to `0`. -/
structure AnalyzerState where
  dependencies : String → Option (List String)
  reverseDepends : String → List String
  abstractTypes : String → Nat
  totalTypes : String → Nat

/-- The freshly constructed analyzer state (`NewModuleAnalyzer`): four
empty maps. -/
def initState : AnalyzerState :=
  { dependencies := fun _ => none
    reverseDepends := fun _ => []
    abstractTypes := fun _ => 0
    totalTypes := fun _ => 0 }

/-- The inner loop of the aggregator: for every `dep` in the result's
dependency list, append the producing package to `dep`'s
reverse-adjacency list. -/
def addReverse (rev : String → List String) (depends : List String)
    (pid : String) : String → List String :=
  depends.foldl (fun m dep => Function.update m dep (m dep ++ [pid])) rev

/-- One iteration of the aggregator's `for result := range results` body
for an error-free result: store the forward list, extend the reverse
lists, store the type counts. -/
def processResult (st : AnalyzerState) (r : PackageAnalysisResult) :
    AnalyzerState :=
  { dependencies := Function.update st.dependencies r.packageID
      (some r.dependencies)
    reverseDepends := addReverse st.reverseDepends r.dependencies
      r.packageID
    abstractTypes := Function.update st.abstractTypes r.packageID
      r.abstractCount
    totalTypes := Function.update st.totalTypes r.packageID
      r.totalTypesCount }

/-- Folding a whole arrival sequence of error-free results into the
aggregator state. -/
def foldResults (st : AnalyzerState) (results : List PackageAnalysisResult) :
    AnalyzerState :=
  results.foldl processResult st

/-- The aggregation loop of `parsePackages`: consume the worker results in
their arrival order; on the first result carrying an error, return that
error; otherwise fold every result into the state. -/
def parsePackages (st : AnalyzerState) :
    List PackageAnalysisResult → Except String AnalyzerState
  | [] => Except.ok st
  | r :: rest =>
      match r.err with
      | some e => Except.error e
      | none => parsePackages (processResult st r) rest

/-- `models.PackageMetrics`, with the `float64` ratios as exact
rationals. -/
structure PackageMetrics where
  Name : String
  Ca : Nat
  Ce : Nat
  Na : Nat
  Nc : Nat
  Instability : ℚ
  Abstractness : ℚ
  Distance : ℚ
deriving DecidableEq

/-- `models.ModuleMetrics`: the module path and the package-metrics map,
modelled extensionally. -/
structure ModuleMetrics where
  Path : String
  Packages : String → Option PackageMetrics

/-- Go `strings.Join segs "/"` on character-list segments. -/
def joinSlash : List (List Char) → List Char
  | [] => []
  | [s] => s
  | s :: rest => s ++ '/' :: joinSlash rest

/-- `getRelativePackagePath` from `pkg/analyzer/analyzer.go`: the display
name of a package ID relative to the module name, with fallback heuristics
for IDs outside the module. -/
def getRelativePackagePath (moduleName importPath : String) : String :=
  if moduleName ≠ "" ∧ goHasPrefix importPath moduleName then
    if importPath = moduleName then
      ⟨(goSplit moduleName '/').getLastD []⟩
    else
      let relPath := trimPrefix importPath (moduleName ++ "/")
      if relPath = "" then ⟨(goSplit moduleName '/').getLastD []⟩
      else relPath
  else
    let importPath' :=
      if (goSplit importPath ' ').length > 1 then
        ⟨(goSplit importPath ' ').headD []⟩
      else importPath
    let parts := goSplit importPath' '/'
    if parts.length ≤ 2 then importPath'
    else ⟨joinSlash (parts.drop (parts.length - 2))⟩

/-- `calculateMetrics` from `pkg/analyzer/analyzer.go`: for every key of
the forward dependency map, derive `Ca`, `Ce`, `Na`, `Nc`, `I`, `A`, `D`
from the aggregate maps and record them under that key. -/
def calculateMetrics (modulePath moduleName : String) (st : AnalyzerState) :
    ModuleMetrics :=
  { Path := modulePath
    Packages := fun pkg =>
      match st.dependencies pkg with
      | none => none
      | some deps =>
          let ca := (st.reverseDepends pkg).length
          let ce := deps.length
          let na := st.abstractTypes pkg
          let nc := st.totalTypes pkg
          let instability : ℚ := if ca + ce > 0 then (ce : ℚ) / ((ca : ℚ) + (ce : ℚ)) else 0
          let abstractness : ℚ := if nc > 0 then (na : ℚ) / (nc : ℚ) else 0
          let distance : ℚ := |abstractness + instability - 1|
          some { Name := getRelativePackagePath moduleName pkg
                 Ca := ca, Ce := ce, Na := na, Nc := nc
                 Instability := instability
                 Abstractness := abstractness
                 Distance := distance } }

/-- `Analyze` from `pkg/analyzer/analyzer.go`, from the point where the
worker results arrive: aggregate them with `parsePackages` (wrapping any
error) and otherwise compute the metrics.  `Except.error` is Go's
`(nil, err)` return: no metrics are produced. -/
def analyze (modulePath moduleName : String)
    (results : List PackageAnalysisResult) : Except String ModuleMetrics :=
  match parsePackages initState results with
  | Except.error e => Except.error ("failed to parse packages: " ++ e)
  | Except.ok st => Except.ok (calculateMetrics modulePath moduleName st)

/-- `PackageInfo` from `pkg/analyzer/discovery.go`. -/
structure PackageInfo where
  ImportPath : String
  Dir : String
  HasGoFiles : Bool

/-- One `progressReporter.Update(current, description)` call observed by
the progress sink. -/
structure ProgressEvent where
  current : Nat
  description : String
deriving DecidableEq, Repr

/-- `BatchLoader` from `pkg/analyzer/discovery.go` (the `config` and
`progressReporter` collaborators are abstracted away: the loader becomes a
function argument and the reporter an event trace). -/
structure BatchLoader where
  batchSize : Nat
  totalPackages : Nat

/-- The batch loop of `BatchLoader.LoadPackages`.  `load` stands for the
external `packages.Load` collaborator; the returned event list is the
sequence of `Update` calls made on the progress reporter.  The Go loop
steps the index by `batchSize`; here each step consumes
`info :: rest.take (bs - 1)`, which equals the Go batch slice for every
`batchSize ≥ 1` (the only values `NewBatchLoader` produces: non-positive
requests are replaced by the default 100). -/
def loadBatches {α : Type} (bs total : Nat)
    (load : List String → Except String (List α)) :
    List PackageInfo → Nat → Except String (List α × List ProgressEvent)
  | [], _ => Except.ok ([], [])
  | info :: rest, loaded =>
      let progressStart := 10
      let progressEnd := 80
      let progressRange := progressEnd - progressStart
      let batch := info :: rest.take (bs - 1)
      let batchPaths := batch.map PackageInfo.ImportPath
      let preProgress := progressStart + loaded * progressRange / total
      let upperBound := loaded + batchPaths.length
      let preEvent : ProgressEvent :=
        ⟨preProgress, "Loading " ++ toString upperBound ++ " of "
          ++ toString total ++ " packages"⟩
      match load batchPaths with
      | Except.error e =>
          Except.error ("failed to load packages batch starting at "
            ++ batchPaths.headD "" ++ ": " ++ e)
      | Except.ok pkgs =>
          let loaded' := loaded + pkgs.length
          let postRaw := progressStart + loaded' * progressRange / total
          let postProgress := if postRaw > progressEnd then progressEnd
            else postRaw
          let postEvent : ProgressEvent :=
            ⟨postProgress, "Loaded " ++ toString loaded' ++ " of "
              ++ toString total ++ " packages"⟩
          match loadBatches bs total load (rest.drop (bs - 1)) loaded' with
          | Except.error e => Except.error e
          | Except.ok (ps, evs) =>
              Except.ok (pkgs ++ ps, preEvent :: postEvent :: evs)
  termination_by infos _ => infos.length
  decreasing_by
    simp only [List.length_drop, List.length_cons]
    omega

/-- `BatchLoader.LoadPackages`: run the batch loop from an empty
accumulator. -/
def LoadPackages {α : Type} (bl : BatchLoader)
    (load : List String → Except String (List α))
    (packageInfos : List PackageInfo) :
    Except String (List α × List ProgressEvent) :=
  loadBatches bl.batchSize bl.totalPackages load packageInfos 0

/-- Modelled from the spec (for comparison with `loadBatches`): the event
trace §4.2 describes — one report before and one after each batch, every
value computed as `phaseStart + loadedSoFar * phaseRange / totalExpected`
with `phaseStart = 10`, `phaseRange = 70`, carrying a "loaded X of Y"
description. -/
def specLoadEvents (bs total : Nat) :
    List PackageInfo → Nat → List ProgressEvent
  | [], _ => []
  | info :: rest, loaded =>
      let n := (info :: rest.take (bs - 1)).length
      ⟨10 + loaded * 70 / total, "Loading " ++ toString (loaded + n)
        ++ " of " ++ toString total ++ " packages"⟩ ::
      ⟨10 + (loaded + n) * 70 / total, "Loaded " ++ toString (loaded + n)
        ++ " of " ++ toString total ++ " packages"⟩ ::
      specLoadEvents bs total (rest.drop (bs - 1)) (loaded + n)
  termination_by infos _ => infos.length
  decreasing_by
    simp only [List.length_drop, List.length_cons]
    omega

example :
    isStandardLibraryPackage "fmt" "github.com/org/mod" = true := by decide

example :
    isStandardLibraryPackage "github.com/org/mod/pkg/x" "github.com/org/mod"
      = false := by decide

example :
    isStandardLibraryPackage "other.org/ext" "github.com/org/mod"
      = false := by decide

example : isStandardLibraryPackage "fmt" "" = true := by decide

example : isStandardLibraryPackage "github.com/org/mod" "" = false := by
  decide

example :
    getRelativePackagePath "github.com/org/mod" "github.com/org/mod/pkg/x"
      = "pkg/x" := by decide

example :
    getRelativePackagePath "github.com/org/mod" "github.com/org/mod"
      = "mod" := by decide

example :
    getRelativePackagePath "github.com/org/mod" "other.org/a/b/c/d"
      = "c/d" := by decide

example :
    (analyzePackage "github.com/org/mod"
      { id := "github.com/org/mod/a"
        imports := ["fmt", "github.com/org/mod/pkg/x", "vendor/foo",
          "other.org/ext"]
        goFiles := [Except.ok ⟨[Decl.interfaceSpec, Decl.structSpec,
          Decl.funcDecl true, Decl.funcDecl false]⟩] }).dependencies
      = ["github.com/org/mod/pkg/x", "other.org/ext"] := by decide

example :
    (analyzePackage "github.com/org/mod"
      { id := "github.com/org/mod/a"
        imports := []
        goFiles := [Except.ok ⟨[Decl.interfaceSpec, Decl.structSpec,
          Decl.funcDecl true, Decl.funcDecl false]⟩] }).totalTypesCount
      = 3 := by decide

/-! ## Helper lemmas -/

/-- `splitCharAux` never returns an empty list of segments. -/
theorem splitCharAux_ne_nil (c : Char) (l acc : List Char) :
    splitCharAux c l acc ≠ [] := by
  induction l generalizing acc with
  | nil => simp [splitCharAux]
  | cons x xs ih =>
      simp only [splitCharAux]
      split
      · simp
      · exact ih _

/-- `goSplit` never returns an empty list of segments (Go's
`strings.Split` always yields at least one element). -/
theorem goSplit_ne_nil (s : String) (c : Char) : goSplit s c ≠ [] :=
  splitCharAux_ne_nil c s.data []

/-- A module-prefixed path is never classified as standard library (the
raw string-prefix check fires before the dot heuristics). -/
theorem isStandardLibraryPackage_of_prefix (imp mn : String)
    (hmn : mn ≠ "") (hpre : goHasPrefix imp mn = true) :
    isStandardLibraryPackage imp mn = false := by
  unfold isStandardLibraryPackage
  rw [if_pos hmn]
  simp [hpre]

/-- Membership in the dependency list computed by `analyzePackage` for a
package that is itself neither standard-library nor vendored. -/
theorem mem_analyzePackage_dependencies (mn : String) (pkg : GoPackage)
    (hns : (isStandardLibraryPackage pkg.id mn
      || goHasPrefix pkg.id "vendor/") = false) (imp : String) :
    imp ∈ (analyzePackage mn pkg).dependencies ↔
      imp ∈ pkg.imports ∧ isStandardLibraryPackage imp mn = false ∧
        goHasPrefix imp "vendor/" = false := by
  simp only [analyzePackage, hns, Bool.false_eq_true, if_false]
  cases h : countTypes pkg.goFiles 0 0 0 with
  | error e => simp [List.mem_filter]
  | ok t =>
      obtain ⟨a, c, f⟩ := t
      simp [List.mem_filter]

/-- The reverse-adjacency update of one result, read at key `q`: the old
list followed by one copy of the producer per occurrence of `q` in its
dependency list. -/
theorem addReverse_apply (rev : String → List String)
    (depends : List String) (pid q : String) :
    addReverse rev depends pid q =
      rev q ++ List.replicate (depends.count q) pid := by
  induction depends generalizing rev with
  | nil => simp [addReverse]
  | cons d ds ih =>
      simp only [addReverse, List.foldl_cons] at *
      rw [ih]
      by_cases hq : q = d
      · subst hq
        rw [Function.update_same]
        simp [List.count_cons, List.replicate_succ, List.append_assoc]
      · rw [Function.update_noteq hq]
        simp [List.count_cons, Ne.symm hq, hq]

/-- Reverse-adjacency lists after folding a result sequence: per key, the
concatenation of each result's contribution block, in arrival order. -/
theorem foldResults_reverseDepends (results : List PackageAnalysisResult)
    (st : AnalyzerState) (q : String) :
    (foldResults st results).reverseDepends q =
      st.reverseDepends q ++
        results.flatMap (fun r =>
          List.replicate (r.dependencies.count q) r.packageID) := by
  induction results generalizing st with
  | nil => simp [foldResults]
  | cons r rest ih =>
      simp only [foldResults, List.foldl_cons, List.flatMap_cons] at *
      rw [ih]
      simp [processResult, addReverse_apply]

/-- Folding results whose IDs avoid `p` leaves the three keyed maps
unchanged at `p`. -/
theorem foldResults_apply_of_not_mem
    (results : List PackageAnalysisResult) (st : AnalyzerState)
    (p : String) (hp : p ∉ results.map PackageAnalysisResult.packageID) :
    (foldResults st results).dependencies p = st.dependencies p ∧
    (foldResults st results).abstractTypes p = st.abstractTypes p ∧
    (foldResults st results).totalTypes p = st.totalTypes p := by
  induction results generalizing st with
  | nil => simp [foldResults]
  | cons r rest ih =>
      simp only [List.map_cons, List.mem_cons, not_or] at hp
      obtain ⟨hp1, hp2⟩ := hp
      have h3 := ih (processResult st r) hp2
      simp only [foldResults, List.foldl_cons] at h3 ⊢
      refine ⟨?_, ?_, ?_⟩
      · rw [h3.1]; exact Function.update_noteq hp1 _ _
      · rw [h3.2.1]; exact Function.update_noteq hp1 _ _
      · rw [h3.2.2]; exact Function.update_noteq hp1 _ _

/-- With pairwise-distinct IDs, folding records each result's forward list
and type counts at its own key. -/
theorem foldResults_apply_of_mem
    (results : List PackageAnalysisResult) (st : AnalyzerState)
    (hnd : (results.map PackageAnalysisResult.packageID).Nodup)
    (r : PackageAnalysisResult) (hr : r ∈ results) :
    (foldResults st results).dependencies r.packageID
        = some r.dependencies ∧
    (foldResults st results).abstractTypes r.packageID = r.abstractCount ∧
    (foldResults st results).totalTypes r.packageID
        = r.totalTypesCount := by
  induction results generalizing st with
  | nil => cases hr
  | cons x rest ih =>
      simp only [List.map_cons, List.nodup_cons] at hnd
      obtain ⟨hx, hnd'⟩ := hnd
      rcases List.mem_cons.mp hr with h | h
      · subst h
        have hni : r.packageID ∉ rest.map PackageAnalysisResult.packageID := hx
        have := foldResults_apply_of_not_mem rest (processResult st r)
          r.packageID hni
        simpa [foldResults, processResult, Function.update_same] using this
      · exact ih (processResult st x) hnd' h

/-- `parsePackages` succeeds exactly on error-free sequences, and then
computes the fold of `processResult`. -/
theorem parsePackages_eq_ok (results : List PackageAnalysisResult)
    (st st' : AnalyzerState) :
    parsePackages st results = Except.ok st' ↔
      (∀ r ∈ results, r.err = none) ∧ st' = foldResults st results := by
  induction results generalizing st with
  | nil =>
      simp only [parsePackages, foldResults, List.foldl_nil]
      constructor
      · intro h; cases h; exact ⟨by simp, rfl⟩
      · rintro ⟨-, rfl⟩; rfl
  | cons r rest ih =>
      simp only [parsePackages]
      cases herr : r.err with
      | some e =>
          simp only [List.mem_cons]
          constructor
          · intro h; cases h
          · rintro ⟨h, -⟩
            have := h r (Or.inl rfl)
            rw [herr] at this; cases this
      | none =>
          rw [ih]
          simp only [foldResults, List.foldl_cons, List.mem_cons]
          constructor
          · rintro ⟨h1, h2⟩
            exact ⟨fun x hx => hx.elim (fun hh => hh ▸ herr) (h1 x), h2⟩
          · rintro ⟨h1, h2⟩
            exact ⟨fun x hx => h1 x (Or.inr hx), h2⟩

/-- If some arriving result carries an error, the aggregation loop aborts
with an error. -/
theorem parsePackages_error_of_mem (results : List PackageAnalysisResult)
    (st : AnalyzerState) (r : PackageAnalysisResult) (hr : r ∈ results)
    (he : r.err.isSome = true) :
    ∃ msg, parsePackages st results = Except.error msg := by
  induction results generalizing st with
  | nil => cases hr
  | cons x rest ih =>
      simp only [parsePackages]
      cases hx : x.err with
      | some e => exact ⟨e, rfl⟩
      | none =>
          rcases List.mem_cons.mp hr with h | h
          · subst h; rw [hx] at he; cases he
          · exact ih (processResult st x) h

/-- A package one of whose files fails to parse makes the counting loop
return an error. -/
theorem countTypes_error_of_mem (files : List (Except String GoFile))
    (e : String) (hf : Except.error e ∈ files) (a c f : Nat) :
    ∃ e', countTypes files a c f = Except.error e' := by
  induction files generalizing a c f with
  | nil => cases hf
  | cons x rest ih =>
      cases x with
      | error e'' => exact ⟨_, rfl⟩
      | ok file =>
          rcases List.mem_cons.mp hf with h | h
          · cases h
          · exact ih h _ _ _

/-- A path whose first segment has no dot and which is not
module-prefixed is classified standard-library (module identity known). -/
theorem isStandardLibraryPackage_stdlib (imp mn : String) (hmn : mn ≠ "")
    (hdot : ((goSplit imp '/').headD []).contains '.' = false)
    (hpre : goHasPrefix imp mn = false) :
    isStandardLibraryPackage imp mn = true := by
  have hne : (goSplit imp '/').isEmpty = false := by
    cases hsp : goSplit imp '/' with
    | nil => exact absurd hsp (goSplit_ne_nil imp '/')
    | cons a l => rfl
  unfold isStandardLibraryPackage
  rw [if_pos hmn]
  simp only [hne, hdot, hpre]
  rfl

/-- A path whose first segment contains a dot (so the whole path does) is
never classified standard-library, module-prefixed or not. -/
theorem isStandardLibraryPackage_external (imp mn : String)
    (hmn : mn ≠ "")
    (hdot : ((goSplit imp '/').headD []).contains '.' = true)
    (hdot2 : goContains imp '.' = true) :
    isStandardLibraryPackage imp mn = false := by
  have hne : (goSplit imp '/').isEmpty = false := by
    cases hsp : goSplit imp '/' with
    | nil => exact absurd hsp (goSplit_ne_nil imp '/')
    | cons a l => rfl
  unfold isStandardLibraryPackage
  rw [if_pos hmn]
  by_cases hpre : goHasPrefix imp mn = true
  · simp only [hne, hdot, hpre]
    rfl
  · rw [Bool.not_eq_true] at hpre
    simp only [hne, hdot, hpre, hdot2]
    rfl

/-- C1: for every package `P` that is a node of the aggregated graph
(a key of the forward dependency map), the computed metrics satisfy
`Ca` = length of `P`'s reverse-adjacency list, `Ce` = length of its
forward-adjacency list, `I = Ce/(Ca+Ce)` when `Ca+Ce > 0` and `I = 0`
when `Ca+Ce = 0`, `A = Na/Nc` when `Nc > 0` and `A = 0` when `Nc = 0`,
and `D = |A + I - 1|`. -/
theorem C1_metric_formulas (mp mn : String) (st : AnalyzerState)
    (p : String) (deps : List String)
    (h : st.dependencies p = some deps) :
    ∃ m : PackageMetrics,
      (calculateMetrics mp mn st).Packages p = some m ∧
      m.Ca = (st.reverseDepends p).length ∧
      m.Ce = deps.length ∧
      m.Na = st.abstractTypes p ∧
      m.Nc = st.totalTypes p ∧
      (0 < m.Ca + m.Ce →
        m.Instability = (m.Ce : ℚ) / ((m.Ca : ℚ) + (m.Ce : ℚ))) ∧
      (m.Ca + m.Ce = 0 → m.Instability = 0) ∧
      (0 < m.Nc → m.Abstractness = (m.Na : ℚ) / (m.Nc : ℚ)) ∧
      (m.Nc = 0 → m.Abstractness = 0) ∧
      m.Distance = |m.Abstractness + m.Instability - 1| := by
  simp only [calculateMetrics, h]
  refine ⟨_, rfl, rfl, rfl, rfl, rfl, ?_, ?_, ?_, ?_, rfl⟩
  · intro h'
    have h'' : (st.reverseDepends p).length + deps.length > 0 := h'
    rw [if_pos h'']
  · intro h'
    have h0 : (st.reverseDepends p).length + deps.length = 0 := h'
    have h'' : ¬((st.reverseDepends p).length + deps.length > 0) := by omega
    rw [if_neg h'']
  · intro h'
    have h'' : st.totalTypes p > 0 := h'
    rw [if_pos h'']
  · intro h'
    have h0 : st.totalTypes p = 0 := h'
    have h'' : ¬(st.totalTypes p > 0) := by omega
    rw [if_neg h'']

/-- Witness for `C1_metric_formulas` at a concrete aggregated state. -/
theorem C1_metric_formulas_witness :
    ∃ m : PackageMetrics,
      (calculateMetrics "/m" "mod"
          (foldResults initState [⟨"a", ["b"], 1, 2, none⟩])).Packages "a"
        = some m ∧
      m.Ca = ((foldResults initState
        [⟨"a", ["b"], 1, 2, none⟩]).reverseDepends "a").length ∧
      m.Ce = (["b"] : List String).length ∧
      m.Na = (foldResults initState
        [⟨"a", ["b"], 1, 2, none⟩]).abstractTypes "a" ∧
      m.Nc = (foldResults initState
        [⟨"a", ["b"], 1, 2, none⟩]).totalTypes "a" ∧
      (0 < m.Ca + m.Ce →
        m.Instability = (m.Ce : ℚ) / ((m.Ca : ℚ) + (m.Ce : ℚ))) ∧
      (m.Ca + m.Ce = 0 → m.Instability = 0) ∧
      (0 < m.Nc → m.Abstractness = (m.Na : ℚ) / (m.Nc : ℚ)) ∧
      (m.Nc = 0 → m.Abstractness = 0) ∧
      m.Distance = |m.Abstractness + m.Instability - 1| :=
  C1_metric_formulas "/m" "mod" _ "a" ["b"]
    (by simp [foldResults, processResult, initState])

/-- C2 counterexample: with module identity `github.com/org/mod`, the
external `other.org/ext` (domain-like first segment outside the module)
is NOT excluded: it lands in the worker's dependency list. -/
theorem C2_counterexample :
    "other.org/ext" ∈ (analyzePackage "github.com/org/mod"
      { id := "github.com/org/mod/a"
        imports := ["fmt", "github.com/org/mod/pkg/x", "vendor/foo",
          "other.org/ext"]
        goFiles := [] }).dependencies ∧
    (analyzePackage "github.com/org/mod"
      { id := "github.com/org/mod/a"
        imports := ["fmt", "github.com/org/mod/pkg/x", "vendor/foo",
          "other.org/ext"]
        goFiles := [] }).dependencies
      = ["github.com/org/mod/pkg/x", "other.org/ext"] := by decide

/-- C2 (amended): for a package with known module identity, the worker
keeps exactly the imports that are neither classified standard-library nor
`vendor/`-prefixed: module-prefixed imports are kept, imports whose first
segment has no dot and which are not module-prefixed (standard library)
are dropped, `vendor/` imports are dropped, and imports with a domain-like
(dotted) first segment outside the module are KEPT. -/
theorem C2_dependency_filter (mn : String) (pkg : GoPackage)
    (hmn : mn ≠ "")
    (hns : (isStandardLibraryPackage pkg.id mn
      || goHasPrefix pkg.id "vendor/") = false) :
    (∀ imp ∈ pkg.imports,
      imp ∈ (analyzePackage mn pkg).dependencies ↔
        isStandardLibraryPackage imp mn = false ∧
          goHasPrefix imp "vendor/" = false) ∧
    (∀ imp ∈ pkg.imports, goHasPrefix imp mn = true →
      goHasPrefix imp "vendor/" = false →
      imp ∈ (analyzePackage mn pkg).dependencies) ∧
    (∀ imp ∈ pkg.imports,
      ((goSplit imp '/').headD []).contains '.' = false →
      goHasPrefix imp mn = false →
      imp ∉ (analyzePackage mn pkg).dependencies) ∧
    (∀ imp ∈ pkg.imports, goHasPrefix imp "vendor/" = true →
      imp ∉ (analyzePackage mn pkg).dependencies) ∧
    (∀ imp ∈ pkg.imports,
      ((goSplit imp '/').headD []).contains '.' = true →
      goContains imp '.' = true →
      goHasPrefix imp "vendor/" = false →
      imp ∈ (analyzePackage mn pkg).dependencies) := by
  refine ⟨fun imp him => ?_, fun imp him h1 h2 => ?_,
    fun imp him h1 h2 => ?_, fun imp him h1 => ?_,
    fun imp him h1 h2 h3 => ?_⟩
  · rw [mem_analyzePackage_dependencies mn pkg hns]
    exact ⟨fun hh => ⟨hh.2.1, hh.2.2⟩, fun hh => ⟨him, hh.1, hh.2⟩⟩
  · rw [mem_analyzePackage_dependencies mn pkg hns]
    exact ⟨him, isStandardLibraryPackage_of_prefix imp mn hmn h1, h2⟩
  · rw [mem_analyzePackage_dependencies mn pkg hns]
    rintro ⟨-, hstd, -⟩
    rw [isStandardLibraryPackage_stdlib imp mn hmn h1 h2] at hstd
    cases hstd
  · rw [mem_analyzePackage_dependencies mn pkg hns]
    rintro ⟨-, -, hv⟩
    rw [h1] at hv
    cases hv
  · rw [mem_analyzePackage_dependencies mn pkg hns]
    exact ⟨him, isStandardLibraryPackage_external imp mn hmn h1 h2, h3⟩

/-- Witness for `C2_dependency_filter` on a concrete package. -/
theorem C2_dependency_filter_witness :
    "github.com/org/mod/pkg/x" ∈ (analyzePackage "github.com/org/mod"
      { id := "github.com/org/mod/a"
        imports := ["fmt", "github.com/org/mod/pkg/x", "vendor/foo"]
        goFiles := [] }).dependencies ∧
    "fmt" ∉ (analyzePackage "github.com/org/mod"
      { id := "github.com/org/mod/a"
        imports := ["fmt", "github.com/org/mod/pkg/x", "vendor/foo"]
        goFiles := [] }).dependencies ∧
    "vendor/foo" ∉ (analyzePackage "github.com/org/mod"
      { id := "github.com/org/mod/a"
        imports := ["fmt", "github.com/org/mod/pkg/x", "vendor/foo"]
        goFiles := [] }).dependencies := by
  have h := C2_dependency_filter "github.com/org/mod"
    { id := "github.com/org/mod/a"
      imports := ["fmt", "github.com/org/mod/pkg/x", "vendor/foo"]
      goFiles := [] } (by decide) (by decide)
  exact ⟨h.2.1 _ (by decide) (by decide) (by decide),
    h.2.2.1 _ (by decide) (by decide) (by decide),
    h.2.2.2.1 _ (by decide) (by decide)⟩

/-- C10: the module-local test is a raw string-prefix check: every import
path beginning with the non-empty module identity as a character prefix —
including sibling modules such as `M ++ "2"` — is classified
not-standard-library, and (when not `vendor/`-prefixed) is kept in the
dependency list as if it were module-local. -/
theorem C10_raw_prefix_check (mn imp : String) (hmn : mn ≠ "")
    (hpre : goHasPrefix imp mn = true) :
    isStandardLibraryPackage imp mn = false ∧
    (∀ pkg : GoPackage,
      (isStandardLibraryPackage pkg.id mn
        || goHasPrefix pkg.id "vendor/") = false →
      imp ∈ pkg.imports → goHasPrefix imp "vendor/" = false →
      imp ∈ (analyzePackage mn pkg).dependencies) := by
  have h1 := isStandardLibraryPackage_of_prefix imp mn hmn hpre
  refine ⟨h1, fun pkg hns him hv => ?_⟩
  rw [mem_analyzePackage_dependencies mn pkg hns]
  exact ⟨him, h1, hv⟩

/-- Witness for `C10_raw_prefix_check`: the sibling-module import
`github.com/org/mod2` is treated as module-local for module
`github.com/org/mod`. -/
theorem C10_raw_prefix_check_witness :
    isStandardLibraryPackage "github.com/org/mod2" "github.com/org/mod"
      = false ∧
    "github.com/org/mod2" ∈ (analyzePackage "github.com/org/mod"
      { id := "github.com/org/mod/a"
        imports := ["github.com/org/mod2"]
        goFiles := [] }).dependencies := by
  have h := C10_raw_prefix_check "github.com/org/mod"
    "github.com/org/mod2" (by decide) (by decide)
  exact ⟨h.1, h.2 _ (by decide) (by decide) (by decide)⟩

/-- A key is present in the forward map after folding iff it was present
before or is the ID of one of the folded results. -/
theorem foldResults_isSome (results : List PackageAnalysisResult)
    (st : AnalyzerState) (p : String) :
    ((foldResults st results).dependencies p).isSome = true ↔
      (st.dependencies p).isSome = true ∨
        p ∈ results.map PackageAnalysisResult.packageID := by
  induction results generalizing st with
  | nil => simp [foldResults]
  | cons r rest ih =>
      simp only [List.map_cons, List.mem_cons]
      rw [show foldResults st (r :: rest)
        = foldResults (processResult st r) rest from rfl, ih]
      by_cases hp : p = r.packageID
      · subst hp
        simp [processResult, Function.update_same]
      · simp only [processResult]
        rw [Function.update_noteq hp]
        tauto

/-- C3 counterexample: the standard-library package `fmt`, classified by
the worker as skipped (empty result, no error), is nevertheless recorded
as a node of the dependency graph by the aggregation loop. -/
theorem C3_counterexample :
    (analyzePackage "github.com/org/mod"
      { id := "fmt", imports := [], goFiles := [] }).dependencies = [] ∧
    (analyzePackage "github.com/org/mod"
      { id := "fmt", imports := [], goFiles := [] }).err = none ∧
    ((foldResults initState
        [analyzePackage "github.com/org/mod"
          { id := "fmt", imports := [], goFiles := [] }]).dependencies
      "fmt").isSome = true := by decide

/-- C3 (amended): after a successful aggregation run, the node set of the
dependency graph (the key set of the forward map) equals the set of
packageIDs of ALL consumed results — including the empty results returned
for standard-library / vendored packages, which therefore do appear as
graph nodes when such a package is fed to the worker pool. -/
theorem C3_node_set (results : List PackageAnalysisResult)
    (st : AnalyzerState)
    (h : parsePackages initState results = Except.ok st) (p : String) :
    (st.dependencies p).isSome = true ↔
      p ∈ results.map PackageAnalysisResult.packageID := by
  obtain ⟨-, rfl⟩ := (parsePackages_eq_ok results initState st).mp h
  rw [foldResults_isSome]
  simp [initState]

/-- Witness for `C3_node_set` on a concrete result list. -/
theorem C3_node_set_witness :
    (((foldResults initState
        [⟨"github.com/org/mod/a", [], 1, 1, none⟩]).dependencies
        "github.com/org/mod/a").isSome = true ↔
      "github.com/org/mod/a" ∈
        ([⟨"github.com/org/mod/a", [], 1, 1, none⟩] :
          List PackageAnalysisResult).map
          PackageAnalysisResult.packageID) :=
  C3_node_set [⟨"github.com/org/mod/a", [], 1, 1, none⟩]
    (foldResults initState [⟨"github.com/org/mod/a", [], 1, 1, none⟩])
    rfl "github.com/org/mod/a"

/-- C9 counterexample: the metrics map is keyed by the full package ID,
not by the display name: for module `github.com/org/mod` and package
`github.com/org/mod/pkg/x` the map has an entry under the full ID, no
entry under the display name `pkg/x`, and the display name is only the
`Name` field of the entry. -/
theorem C9_counterexample :
    ((calculateMetrics "/m" "github.com/org/mod"
        (foldResults initState
          [⟨"github.com/org/mod/pkg/x", [], 0, 1, none⟩])).Packages
      "github.com/org/mod/pkg/x").isSome = true ∧
    (calculateMetrics "/m" "github.com/org/mod"
        (foldResults initState
          [⟨"github.com/org/mod/pkg/x", [], 0, 1, none⟩])).Packages
      "pkg/x" = none ∧
    ((calculateMetrics "/m" "github.com/org/mod"
        (foldResults initState
          [⟨"github.com/org/mod/pkg/x", [], 0, 1, none⟩])).Packages
      "github.com/org/mod/pkg/x").map PackageMetrics.Name
      = some "pkg/x" := by decide

/-- C9 (amended): every entry of the metrics map sits under the package's
full ID; the display name is stored in the entry's `Name` field and is
the path relative to the module identity — the module-root package gets
the last segment of the module identity, and a properly module-prefixed
package gets its path with the module prefix trimmed. -/
theorem C9_display_name (mp mn : String) (st : AnalyzerState) (p : String)
    (deps : List String) (h : st.dependencies p = some deps) :
    ∃ m : PackageMetrics,
      (calculateMetrics mp mn st).Packages p = some m ∧
      m.Name = getRelativePackagePath mn p ∧
      (mn ≠ "" → p = mn →
        m.Name = (⟨(goSplit mn '/').getLastD []⟩ : String)) ∧
      (mn ≠ "" → goHasPrefix p mn = true → p ≠ mn →
        trimPrefix p (mn ++ "/") ≠ "" →
        m.Name = trimPrefix p (mn ++ "/")) := by
  simp only [calculateMetrics, h]
  refine ⟨_, rfl, rfl, ?_, ?_⟩
  · intro hmn hp
    show getRelativePackagePath mn p = _
    rw [hp]
    unfold getRelativePackagePath
    have hself : goHasPrefix mn mn = true := by
      simp [goHasPrefix, List.isPrefixOf_iff_prefix]
    rw [if_pos ⟨hmn, hself⟩, if_pos rfl]
  · intro hmn hpre hne hrel
    show getRelativePackagePath mn p = _
    unfold getRelativePackagePath
    rw [if_pos ⟨hmn, hpre⟩, if_neg hne, if_neg hrel]

/-- Witness for `C9_display_name` on a concrete aggregated state. -/
theorem C9_display_name_witness :
    ∃ m : PackageMetrics,
      (calculateMetrics "/m" "github.com/org/mod"
          (foldResults initState
            [⟨"github.com/org/mod/pkg/x", [], 0, 1, none⟩])).Packages
        "github.com/org/mod/pkg/x" = some m ∧
      m.Name = getRelativePackagePath "github.com/org/mod"
        "github.com/org/mod/pkg/x" ∧
      ("github.com/org/mod" ≠ "" →
        "github.com/org/mod/pkg/x" = "github.com/org/mod" →
        m.Name = (⟨(goSplit "github.com/org/mod" '/').getLastD []⟩ :
          String)) ∧
      ("github.com/org/mod" ≠ "" →
        goHasPrefix "github.com/org/mod/pkg/x" "github.com/org/mod"
          = true →
        "github.com/org/mod/pkg/x" ≠ "github.com/org/mod" →
        trimPrefix "github.com/org/mod/pkg/x" ("github.com/org/mod" ++ "/")
          ≠ "" →
        m.Name = trimPrefix "github.com/org/mod/pkg/x"
          ("github.com/org/mod" ++ "/")) :=
  C9_display_name "/m" "github.com/org/mod"
    (foldResults initState [⟨"github.com/org/mod/pkg/x", [], 0, 1, none⟩])
    "github.com/org/mod/pkg/x" []
    (by simp [foldResults, processResult, initState])

/-- C4: graph symmetry invariant — after the aggregator has folded any
sequence of results with pairwise-distinct package IDs (one result per
package, as the pipeline produces), `Q` is a member of `P`'s
forward-adjacency list iff `P` is a member of `Q`'s reverse-adjacency
list.  Prefixes of an arrival sequence are themselves such sequences, so
this holds after every prefix of the stream. -/
theorem C4_graph_symmetry (results : List PackageAnalysisResult)
    (hnd : (results.map PackageAnalysisResult.packageID).Nodup)
    (P Q : String) :
    Q ∈ ((foldResults initState results).dependencies P).getD [] ↔
      P ∈ (foldResults initState results).reverseDepends Q := by
  rw [foldResults_reverseDepends,
    show initState.reverseDepends Q = [] from rfl, List.nil_append]
  constructor
  · intro hq
    cases hdep : (foldResults initState results).dependencies P with
    | none => rw [hdep] at hq; cases hq
    | some deps =>
        rw [hdep] at hq
        have hmem : P ∈ results.map PackageAnalysisResult.packageID := by
          have hs := (foldResults_isSome results initState P).mp
            (by rw [hdep]; rfl)
          simpa [initState] using hs
        obtain ⟨r, hr, hrp⟩ := List.mem_map.mp hmem
        have hchar := (foldResults_apply_of_mem results initState hnd
          r hr).1
        rw [hrp, hdep] at hchar
        have hdeps : deps = r.dependencies := Option.some.inj hchar
        refine List.mem_flatMap.mpr ⟨r, hr, ?_⟩
        refine List.mem_replicate.mpr ⟨?_, hrp.symm⟩
        intro hzero
        have : Q ∉ r.dependencies := List.count_eq_zero.mp hzero
        exact this (hdeps ▸ hq)
  · intro hp
    obtain ⟨r, hr, hin⟩ := List.mem_flatMap.mp hp
    obtain ⟨hcnt, hPr⟩ := List.mem_replicate.mp hin
    have hQr : Q ∈ r.dependencies := by
      by_contra hc
      exact hcnt (List.count_eq_zero.mpr hc)
    have hchar := (foldResults_apply_of_mem results initState hnd r hr).1
    rw [hPr, hchar]
    simpa using hQr

/-- Witness for `C4_graph_symmetry` on a concrete two-package graph. -/
theorem C4_graph_symmetry_witness :
    ("b" ∈ ((foldResults initState
        [⟨"a", ["b"], 0, 0, none⟩,
         ⟨"b", [], 0, 1, none⟩]).dependencies "a").getD [] ↔
      "a" ∈ (foldResults initState
        [⟨"a", ["b"], 0, 0, none⟩,
         ⟨"b", [], 0, 1, none⟩]).reverseDepends "b") :=
  C4_graph_symmetry
    [⟨"a", ["b"], 0, 0, none⟩, ⟨"b", [], 0, 1, none⟩]
    (by decide) "a" "b"

/-- C7: if any source file of any (non-skipped) package fails to parse,
the worker's result for that package carries an error; once the aggregator
observes a result sequence containing it, the analysis aborts and `Analyze`
returns a single wrapped error — an `Except.error`, i.e. no metrics at
all. -/
theorem C7_parse_error_aborts (mp mn : String) (pkgs : List GoPackage)
    (results : List PackageAnalysisResult)
    (hres : results.Perm (pkgs.map (analyzePackage mn)))
    (pkg : GoPackage) (hpkg : pkg ∈ pkgs)
    (hns : (isStandardLibraryPackage pkg.id mn
      || goHasPrefix pkg.id "vendor/") = false)
    (e : String) (hfile : Except.error e ∈ pkg.goFiles) :
    (analyzePackage mn pkg).err.isSome = true ∧
    ∃ msg, analyze mp mn results
      = Except.error ("failed to parse packages: " ++ msg) := by
  obtain ⟨e', hce⟩ := countTypes_error_of_mem pkg.goFiles e hfile 0 0 0
  have herr : (analyzePackage mn pkg).err.isSome = true := by
    simp only [analyzePackage, hns, Bool.false_eq_true, if_false, hce]
    rfl
  have hrmem : analyzePackage mn pkg ∈ results :=
    hres.symm.subset (List.mem_map_of_mem _ hpkg)
  obtain ⟨msg, hmsg⟩ := parsePackages_error_of_mem results initState
    (analyzePackage mn pkg) hrmem herr
  refine ⟨herr, msg, ?_⟩
  unfold analyze
  rw [hmsg]

/-- Witness for `C7_parse_error_aborts` on a concrete failing module. -/
theorem C7_parse_error_aborts_witness :
    (analyzePackage "github.com/org/mod"
      { id := "github.com/org/mod/a", imports := []
        goFiles := [Except.error "boom"] }).err.isSome = true ∧
    ∃ msg, analyze "/m" "github.com/org/mod"
        ([{ id := "github.com/org/mod/a", imports := []
            goFiles := [Except.error "boom"] }].map
          (analyzePackage "github.com/org/mod"))
      = Except.error ("failed to parse packages: " ++ msg) :=
  C7_parse_error_aborts "/m" "github.com/org/mod"
    [{ id := "github.com/org/mod/a", imports := []
       goFiles := [Except.error "boom"] }] _
    (List.Perm.refl _)
    { id := "github.com/org/mod/a", imports := []
      goFiles := [Except.error "boom"] }
    (by decide) (by decide) "boom" (by decide)

/-- A worker result never reports more abstract types than total types:
`totalTypesCount` is the sum of abstract, struct and standalone-function
counts. -/
theorem analyzePackage_abstract_le (mn : String) (pkg : GoPackage) :
    (analyzePackage mn pkg).abstractCount
      ≤ (analyzePackage mn pkg).totalTypesCount := by
  unfold analyzePackage
  by_cases hsk : (isStandardLibraryPackage pkg.id mn
      || goHasPrefix pkg.id "vendor/") = true
  · rw [if_pos hsk]
  · rw [if_neg hsk]
    cases hct : countTypes pkg.goFiles 0 0 0 with
    | error e => exact Nat.le_refl 0
    | ok t =>
        obtain ⟨a, c, f⟩ := t
        show a ≤ a + c + f
        omega

/-- Aggregation preserves `abstractTypes ≤ totalTypes` pointwise when
every folded result satisfies it. -/
theorem foldResults_abstract_le (results : List PackageAnalysisResult)
    (hle : ∀ r ∈ results, r.abstractCount ≤ r.totalTypesCount)
    (st : AnalyzerState)
    (hst : ∀ p, st.abstractTypes p ≤ st.totalTypes p) (p : String) :
    (foldResults st results).abstractTypes p
      ≤ (foldResults st results).totalTypes p := by
  induction results generalizing st with
  | nil => exact hst p
  | cons r rest ih =>
      refine ih (fun x hx => hle x (List.mem_cons_of_mem _ hx))
        (processResult st r) (fun q => ?_)
      by_cases hq : q = r.packageID
      · subst hq
        show Function.update st.abstractTypes r.packageID
            r.abstractCount r.packageID
          ≤ Function.update st.totalTypes r.packageID
            r.totalTypesCount r.packageID
        rw [Function.update_same, Function.update_same]
        exact hle r (List.mem_cons_self _ _)
      · show Function.update st.abstractTypes r.packageID
            r.abstractCount q
          ≤ Function.update st.totalTypes r.packageID r.totalTypesCount q
        rw [Function.update_noteq hq, Function.update_noteq hq]
        exact hst q

/-- C5: for every package of the computed `ModuleMetrics` (aggregated from
worker results), `Na ≤ Nc`, so `I ∈ [0,1]`, `A ∈ [0,1]` and
`0 ≤ D = |A + I - 1| ≤ 1`. -/
theorem C5_metric_ranges (mp mn : String) (pkgs : List GoPackage)
    (results : List PackageAnalysisResult)
    (hres : ∀ r ∈ results, ∃ pkg ∈ pkgs, r = analyzePackage mn pkg)
    (p : String) (m : PackageMetrics)
    (hm : (calculateMetrics mp mn
      (foldResults initState results)).Packages p = some m) :
    m.Na ≤ m.Nc ∧
    0 ≤ m.Instability ∧ m.Instability ≤ 1 ∧
    0 ≤ m.Abstractness ∧ m.Abstractness ≤ 1 ∧
    0 ≤ m.Distance ∧ m.Distance ≤ 1 := by
  have hna : ∀ q, (foldResults initState results).abstractTypes q
      ≤ (foldResults initState results).totalTypes q := by
    intro q
    refine foldResults_abstract_le results ?_ initState (fun _ => le_rfl) q
    intro r hr
    obtain ⟨pkg, -, rfl⟩ := hres r hr
    exact analyzePackage_abstract_le mn pkg
  cases hdep : (foldResults initState results).dependencies p with
  | none =>
      rw [calculateMetrics] at hm
      simp only [hdep] at hm
      exact Option.noConfusion hm
  | some deps =>
      rw [calculateMetrics] at hm
      simp only [hdep] at hm
      rw [Option.some_inj] at hm
      subst hm
      set ca := ((foldResults initState results).reverseDepends p).length
        with hca
      set ce := deps.length with hce
      set na := (foldResults initState results).abstractTypes p with hna2
      set nc := (foldResults initState results).totalTypes p with hnc
      have hI : (0:ℚ) ≤ (if ca + ce > 0 then
          (ce : ℚ) / ((ca : ℚ) + (ce : ℚ)) else 0) ∧
          (if ca + ce > 0 then (ce : ℚ) / ((ca : ℚ) + (ce : ℚ)) else 0)
            ≤ 1 := by
        by_cases hpos : ca + ce > 0
        · rw [if_pos hpos]
          have hd : (0:ℚ) < (ca : ℚ) + (ce : ℚ) := by
            have : (0:ℚ) < ((ca + ce : ℕ) : ℚ) := by
              exact_mod_cast hpos
            push_cast at this
            linarith
          constructor
          · positivity
          · rw [div_le_one hd]
            have : (ce:ℚ) ≤ (ca:ℚ) + (ce:ℚ) := by
              have : (0:ℚ) ≤ (ca:ℚ) := by positivity
              linarith
            exact this
        · rw [if_neg hpos]
          norm_num
      have hA : (0:ℚ) ≤ (if nc > 0 then (na : ℚ) / (nc : ℚ) else 0) ∧
          (if nc > 0 then (na : ℚ) / (nc : ℚ) else 0) ≤ 1 := by
        by_cases hpos : nc > 0
        · rw [if_pos hpos]
          have hd : (0:ℚ) < (nc : ℚ) := by exact_mod_cast hpos
          constructor
          · positivity
          · rw [div_le_one hd]
            exact_mod_cast hna p
        · rw [if_neg hpos]
          norm_num
      refine ⟨hna p, hI.1, hI.2, hA.1, hA.2, abs_nonneg _, ?_⟩
      rw [abs_le]
      constructor
      · linarith [hI.1, hA.1]
      · linarith [hI.2, hA.2]

/-- Witness for `C5_metric_ranges`: the two-package scenario of §8 of the
spec (interface + standalone function in `a`; `b` imports `a` and defines
one struct). -/
theorem C5_metric_ranges_witness :
    ∃ m : PackageMetrics,
      (calculateMetrics "/m" "github.com/org/mod"
          (foldResults initState
            ([⟨"github.com/org/mod/a", [],
          [Except.ok ⟨[Decl.interfaceSpec, Decl.funcDecl false]⟩]⟩,
        (⟨"github.com/org/mod/b", ["github.com/org/mod/a"],
          [Except.ok ⟨[Decl.structSpec]⟩]⟩ : GoPackage)].map
        (analyzePackage "github.com/org/mod")))).Packages
        "github.com/org/mod/a" = some m ∧
      m.Na ≤ m.Nc ∧
      0 ≤ m.Instability ∧ m.Instability ≤ 1 ∧
      0 ≤ m.Abstractness ∧ m.Abstractness ≤ 1 ∧
      0 ≤ m.Distance ∧ m.Distance ≤ 1 := by
  have hm : (calculateMetrics "/m" "github.com/org/mod"
      (foldResults initState
        ([⟨"github.com/org/mod/a", [],
          [Except.ok ⟨[Decl.interfaceSpec, Decl.funcDecl false]⟩]⟩,
        (⟨"github.com/org/mod/b", ["github.com/org/mod/a"],
          [Except.ok ⟨[Decl.structSpec]⟩]⟩ : GoPackage)].map
        (analyzePackage "github.com/org/mod")))).Packages
      "github.com/org/mod/a"
      = some ⟨"a", 1, 0, 1, 2, 0, 1/2, 1/2⟩ := by
    have h1 : (foldResults initState
        ([⟨"github.com/org/mod/a", [],
          [Except.ok ⟨[Decl.interfaceSpec, Decl.funcDecl false]⟩]⟩,
        (⟨"github.com/org/mod/b", ["github.com/org/mod/a"],
          [Except.ok ⟨[Decl.structSpec]⟩]⟩ : GoPackage)].map
        (analyzePackage "github.com/org/mod"))).dependencies
        "github.com/org/mod/a" = some [] := by decide
    have h2 : (foldResults initState
        ([⟨"github.com/org/mod/a", [],
          [Except.ok ⟨[Decl.interfaceSpec, Decl.funcDecl false]⟩]⟩,
        (⟨"github.com/org/mod/b", ["github.com/org/mod/a"],
          [Except.ok ⟨[Decl.structSpec]⟩]⟩ : GoPackage)].map
        (analyzePackage "github.com/org/mod"))).reverseDepends
        "github.com/org/mod/a" = ["github.com/org/mod/b"] := by decide
    have h3 : (foldResults initState
        ([⟨"github.com/org/mod/a", [],
          [Except.ok ⟨[Decl.interfaceSpec, Decl.funcDecl false]⟩]⟩,
        (⟨"github.com/org/mod/b", ["github.com/org/mod/a"],
          [Except.ok ⟨[Decl.structSpec]⟩]⟩ : GoPackage)].map
        (analyzePackage "github.com/org/mod"))).abstractTypes
        "github.com/org/mod/a" = 1 := by decide
    have h4 : (foldResults initState
        ([⟨"github.com/org/mod/a", [],
          [Except.ok ⟨[Decl.interfaceSpec, Decl.funcDecl false]⟩]⟩,
        (⟨"github.com/org/mod/b", ["github.com/org/mod/a"],
          [Except.ok ⟨[Decl.structSpec]⟩]⟩ : GoPackage)].map
        (analyzePackage "github.com/org/mod"))).totalTypes
        "github.com/org/mod/a" = 2 := by decide
    have h5 : getRelativePackagePath "github.com/org/mod"
        "github.com/org/mod/a" = "a" := by decide
    rw [calculateMetrics]
    simp only [h1, h2, h3, h4, h5]
    norm_num
  exact ⟨_, hm, C5_metric_ranges "/m" "github.com/org/mod"
    [⟨"github.com/org/mod/a", [],
       [Except.ok ⟨[Decl.interfaceSpec, Decl.funcDecl false]⟩]⟩,
     (⟨"github.com/org/mod/b", ["github.com/org/mod/a"],
       [Except.ok ⟨[Decl.structSpec]⟩]⟩ : GoPackage)] _
    (by decide) "github.com/org/mod/a" _ hm⟩

/-- C6: folding any two permutations of a duplicate-free sequence of
worker results yields the same dependency graph — the forward maps are
equal, each reverse-adjacency list is a permutation (the same edge
multiset) — and literally identical `ModuleMetrics` (same `Ca`, `Ce`,
`Na`, `Nc`, `I`, `A`, `D` for every package). -/
theorem C6_order_invariance (mp mn : String)
    (results1 results2 : List PackageAnalysisResult)
    (hperm : results1.Perm results2)
    (hnd : (results1.map PackageAnalysisResult.packageID).Nodup) :
    (foldResults initState results1).dependencies
      = (foldResults initState results2).dependencies ∧
    (∀ q, ((foldResults initState results1).reverseDepends q).Perm
      ((foldResults initState results2).reverseDepends q)) ∧
    (foldResults initState results1).abstractTypes
      = (foldResults initState results2).abstractTypes ∧
    (foldResults initState results1).totalTypes
      = (foldResults initState results2).totalTypes ∧
    calculateMetrics mp mn (foldResults initState results1)
      = calculateMetrics mp mn (foldResults initState results2) := by
  have hnd2 : (results2.map PackageAnalysisResult.packageID).Nodup :=
    ((hperm.map _).nodup_iff).mp hnd
  have hkey : ∀ p : String,
      p ∉ results1.map PackageAnalysisResult.packageID →
      p ∉ results2.map PackageAnalysisResult.packageID :=
    fun p hp hc => hp ((hperm.map _).mem_iff.mpr hc)
  have hdep : (foldResults initState results1).dependencies
      = (foldResults initState results2).dependencies := by
    funext p
    by_cases hp : p ∈ results1.map PackageAnalysisResult.packageID
    · obtain ⟨r, hr, hrp⟩ := List.mem_map.mp hp
      have h1 := (foldResults_apply_of_mem results1 initState hnd r hr).1
      have h2 := (foldResults_apply_of_mem results2 initState hnd2 r
        (hperm.mem_iff.mp hr)).1
      rw [hrp] at h1 h2
      rw [h1, h2]
    · rw [(foldResults_apply_of_not_mem results1 initState p hp).1,
        (foldResults_apply_of_not_mem results2 initState p (hkey p hp)).1]
  have habs : (foldResults initState results1).abstractTypes
      = (foldResults initState results2).abstractTypes := by
    funext p
    by_cases hp : p ∈ results1.map PackageAnalysisResult.packageID
    · obtain ⟨r, hr, hrp⟩ := List.mem_map.mp hp
      have h1 := (foldResults_apply_of_mem results1 initState hnd r hr).2.1
      have h2 := (foldResults_apply_of_mem results2 initState hnd2 r
        (hperm.mem_iff.mp hr)).2.1
      rw [hrp] at h1 h2
      rw [h1, h2]
    · rw [(foldResults_apply_of_not_mem results1 initState p hp).2.1,
        (foldResults_apply_of_not_mem results2 initState p
          (hkey p hp)).2.1]
  have htot : (foldResults initState results1).totalTypes
      = (foldResults initState results2).totalTypes := by
    funext p
    by_cases hp : p ∈ results1.map PackageAnalysisResult.packageID
    · obtain ⟨r, hr, hrp⟩ := List.mem_map.mp hp
      have h1 := (foldResults_apply_of_mem results1 initState hnd
        r hr).2.2
      have h2 := (foldResults_apply_of_mem results2 initState hnd2 r
        (hperm.mem_iff.mp hr)).2.2
      rw [hrp] at h1 h2
      rw [h1, h2]
    · rw [(foldResults_apply_of_not_mem results1 initState p hp).2.2,
        (foldResults_apply_of_not_mem results2 initState p
          (hkey p hp)).2.2]
  have hrev : ∀ q, ((foldResults initState results1).reverseDepends q).Perm
      ((foldResults initState results2).reverseDepends q) := by
    intro q
    rw [foldResults_reverseDepends, foldResults_reverseDepends]
    exact (List.Perm.flatMap_right _ hperm).append_left _
  refine ⟨hdep, hrev, habs, htot, ?_⟩
  show ModuleMetrics.mk mp _ = ModuleMetrics.mk mp _
  have hpack : (calculateMetrics mp mn
        (foldResults initState results1)).Packages
      = (calculateMetrics mp mn
        (foldResults initState results2)).Packages := by
    funext p
    show (calculateMetrics mp mn
        (foldResults initState results1)).Packages p
      = (calculateMetrics mp mn
        (foldResults initState results2)).Packages p
    rw [calculateMetrics, calculateMetrics]
    simp only
    rw [hdep, habs, htot, (hrev p).length_eq]
  exact congrArg (ModuleMetrics.mk mp) hpack

/-- Witness for `C6_order_invariance`: two results folded in both
orders. -/
theorem C6_order_invariance_witness :
    (foldResults initState
        [⟨"a", ["b"], 1, 2, none⟩, ⟨"b", [], 0, 1, none⟩]).dependencies
      = (foldResults initState
        [⟨"b", [], 0, 1, none⟩, ⟨"a", ["b"], 1, 2, none⟩]).dependencies ∧
    (∀ q, ((foldResults initState
        [⟨"a", ["b"], 1, 2, none⟩,
         ⟨"b", [], 0, 1, none⟩]).reverseDepends q).Perm
      ((foldResults initState
        [⟨"b", [], 0, 1, none⟩,
         ⟨"a", ["b"], 1, 2, none⟩]).reverseDepends q)) ∧
    (foldResults initState
        [⟨"a", ["b"], 1, 2, none⟩, ⟨"b", [], 0, 1, none⟩]).abstractTypes
      = (foldResults initState
        [⟨"b", [], 0, 1, none⟩, ⟨"a", ["b"], 1, 2, none⟩]).abstractTypes ∧
    (foldResults initState
        [⟨"a", ["b"], 1, 2, none⟩, ⟨"b", [], 0, 1, none⟩]).totalTypes
      = (foldResults initState
        [⟨"b", [], 0, 1, none⟩, ⟨"a", ["b"], 1, 2, none⟩]).totalTypes ∧
    calculateMetrics "/m" "mod" (foldResults initState
        [⟨"a", ["b"], 1, 2, none⟩, ⟨"b", [], 0, 1, none⟩])
      = calculateMetrics "/m" "mod" (foldResults initState
        [⟨"b", [], 0, 1, none⟩, ⟨"a", ["b"], 1, 2, none⟩]) :=
  C6_order_invariance "/m" "mod"
    [⟨"a", ["b"], 1, 2, none⟩, ⟨"b", [], 0, 1, none⟩]
    [⟨"b", [], 0, 1, none⟩, ⟨"a", ["b"], 1, 2, none⟩]
    (List.Perm.swap _ _ _) (by decide)

/-- Under normal operation — the loader resolves every requested batch,
one package object per requested path, and the total-count hint is the
number of descriptors — the batch loop returns all packages, its event
trace is exactly the spec trace (one pre- and one post-report per batch,
each value given by the phase formula), and no reported value exceeds the
phase bound 80. -/
theorem loadBatches_spec {α : Type} (bs total : Nat)
    (load : List String → Except String (List α))
    (hsucc : ∀ ps, ∃ l, load ps = Except.ok l ∧ l.length = ps.length) :
    ∀ (n : Nat) (infos : List PackageInfo), infos.length ≤ n →
      ∀ loaded : Nat, loaded + infos.length = total →
      ∃ pkgs : List α,
        loadBatches bs total load infos loaded
          = Except.ok (pkgs, specLoadEvents bs total infos loaded) ∧
        ∀ ev ∈ specLoadEvents bs total infos loaded, ev.current ≤ 80 := by
  intro n
  induction n with
  | zero =>
      intro infos hlen loaded hinv
      obtain rfl : infos = [] :=
        List.length_eq_zero.mp (Nat.le_zero.mp hlen)
      exact ⟨[], by simp [loadBatches, specLoadEvents],
        by simp [specLoadEvents]⟩
  | succ k ih =>
      intro infos hlen loaded hinv
      cases infos with
      | nil =>
          exact ⟨[], by simp [loadBatches, specLoadEvents],
            by simp [specLoadEvents]⟩
      | cons info rest =>
          obtain ⟨l, hl, hlen'⟩ :=
            hsucc ((info :: rest.take (bs - 1)).map PackageInfo.ImportPath)
          have hn : l.length = (info :: rest.take (bs - 1)).length := by
            rw [hlen', List.length_map]
          have htotpos : 0 < total := by
            simp only [List.length_cons] at hinv
            omega
          have hloadedle : loaded ≤ total := by
            simp only [List.length_cons] at hinv
            omega
          have hstep : loaded + l.length ≤ total := by
            rw [hn]
            simp only [List.length_cons, List.length_take] at hinv ⊢
            omega
          have hinv' : (loaded + l.length)
              + (rest.drop (bs - 1)).length = total := by
            rw [hn]
            simp only [List.length_cons, List.length_take,
              List.length_drop] at hinv ⊢
            omega
          have hlenk : (rest.drop (bs - 1)).length ≤ k := by
            simp only [List.length_cons] at hlen
            simp only [List.length_drop]
            omega
          obtain ⟨pkgs', hrec, hall⟩ :=
            ih (rest.drop (bs - 1)) hlenk (loaded + l.length) hinv'
          have hdivle : ∀ m : Nat, m ≤ total →
              10 + m * 70 / total ≤ 80 := by
            intro m hm
            have h1 : m * 70 ≤ total * 70 := Nat.mul_le_mul_right _ hm
            have h2 : m * 70 / total ≤ 70 := Nat.div_le_of_le_mul' h1
            omega
          have hpost : ¬(10 + (loaded + l.length) * 70 / total > 80) := by
            have := hdivle _ hstep
            omega
          refine ⟨l ++ pkgs', ?_, ?_⟩
          · rw [loadBatches]
            simp only [hl]
            simp only [List.length_map]
            simp only [hrec]
            simp only [if_neg hpost]
            rw [specLoadEvents]
            rw [hn]
          · intro ev hev
            rw [specLoadEvents] at hev
            simp only [List.mem_cons] at hev
            rcases hev with rfl | hev
            · exact hdivle loaded hloadedle
            · rcases hev with rfl | hev
              · refine hdivle _ ?_
                rw [← hn]
                exact hstep
              · rw [← hn] at hev
                exact hall ev hev

/-- C8: during batch loading under normal operation (the total-count hint
equals the number of descriptors and the loader resolves every batch
one-to-one), every progress value reported to the sink equals
`phaseStart + loadedSoFar * phaseRange / totalExpected` with
`phaseStart = 10`, `phaseRange = 70`, never exceeds the phase bound 80,
and the trace is exactly one "Loading X of Y" report before and one
"Loaded X of Y" report after each batch. -/
theorem C8_batch_progress {α : Type} (bl : BatchLoader)
    (load : List String → Except String (List α))
    (infos : List PackageInfo)
    (htotal : bl.totalPackages = infos.length)
    (hsucc : ∀ ps, ∃ l, load ps = Except.ok l ∧ l.length = ps.length) :
    ∃ pkgs : List α,
      LoadPackages bl load infos
        = Except.ok (pkgs,
            specLoadEvents bl.batchSize bl.totalPackages infos 0) ∧
      ∀ ev ∈ specLoadEvents bl.batchSize bl.totalPackages infos 0,
        ev.current ≤ 80 :=
  loadBatches_spec bl.batchSize bl.totalPackages load hsucc infos.length
    infos le_rfl 0 (by omega)

/-- Witness for `C8_batch_progress`: three descriptors loaded in batches
of two. -/
theorem C8_batch_progress_witness :
    ∃ pkgs : List Unit,
      LoadPackages ⟨2, 3⟩
          (fun ps => Except.ok (ps.map fun _ => ()))
          [⟨"a", "", true⟩, ⟨"b", "", true⟩, ⟨"c", "", true⟩]
        = Except.ok (pkgs,
            specLoadEvents 2 3
              [⟨"a", "", true⟩, ⟨"b", "", true⟩, ⟨"c", "", true⟩] 0) ∧
      ∀ ev ∈ specLoadEvents 2 3
          [⟨"a", "", true⟩, ⟨"b", "", true⟩, ⟨"c", "", true⟩] 0,
        ev.current ≤ 80 :=
  C8_batch_progress ⟨2, 3⟩
    (fun ps => Except.ok (ps.map fun _ => ()))
    [⟨"a", "", true⟩, ⟨"b", "", true⟩, ⟨"c", "", true⟩] rfl
    (fun ps => ⟨ps.map fun _ => (), rfl, by simp⟩)
